import Mathlib

/-!
Verification development for the code-aware retrieval (RAG) pipeline and the
image-analysis UI component of this repository.

The retrieval pipeline (context extraction, query building, orchestration,
ranking, caching) is described in the repository documentation
(src/openhands/rag/README.md) and the system specification; its implementation
is not part of the checked-out sources, so the pipeline components below are
modelled from the specification text, as indicated on each definition.
The image-analysis component is embedded directly from
src/frontend/src/components/features/chat/image-analysis-button.tsx.
-/

/-! ### Basic data model -/

/-- Modelled from the spec: the closed enumeration of query types accepted by
the QueryBuilder (`api_doc`, `error_solution`, `implementation`). -/
inductive QueryType where
  | api_doc
  | error_solution
  | implementation
deriving DecidableEq

/-- Modelled from the spec: the source identifier enumeration of a
SourceResult (official-doc, community-qa, code-search). -/
inductive SourceId where
  | officialDoc
  | communityQA
  | codeSearch
deriving DecidableEq

/-- Modelled from the spec: a raw result returned by a source adapter: source
identifier, title, canonical reference, snippet, a "contains code block" flag,
a "has solution marker" flag, and an optional source-supplied quality signal
normalized to the unit interval (absent when the provider supplies none). -/
structure SourceResult where
  source : SourceId
  title : String
  canonicalRef : String
  snippet : String
  containsCodeBlock : Bool
  hasSolutionMarker : Bool
  quality : Option ℚ
deriving DecidableEq

/-- Modelled from the spec: a provider-agnostic query request produced by the
QueryBuilder. -/
structure QueryRequest where
  queryType : QueryType
  query : String
  library : Option String
  functionName : Option String
  language : Option String
  codeSnippet : Option String
deriving DecidableEq

/-- Modelled from the spec: the raw tool-invocation parameters supplied by the
hosting agent; the query type arrives as an untyped string and is validated by
the QueryBuilder. -/
structure ToolParams where
  query_type : String
  query : String
  library : Option String
  functionName : Option String
  file_content : Option String
  language : Option String
deriving DecidableEq

/-- Modelled from the spec: the only fatal error of the pipeline, raised by
the QueryBuilder for an unsupported query type or an empty (after trimming)
query string. -/
inductive ValidationError where
  | unsupportedQueryType (given : String)
  | emptyQuery
deriving DecidableEq

/-! ### String utilities (case-insensitive containment, reference
normalization) -/

/-- Character-list test: the first list is a prefix-wise match of the second
at its head. -/
def subAt : List Char → List Char → Bool
  | [], _ => true
  | _ :: _, [] => false
  | a :: as, b :: bs => a == b && subAt as bs

/-- Character-list test: the first list occurs contiguously somewhere inside
the second. -/
def subIn : List Char → List Char → Bool
  | [], _ => true
  | _ :: _, [] => false
  | n, b :: bs => subAt n (b :: bs) || subIn n bs

/-- Case-insensitive substring test used for the exact-name boost of the
ranker. -/
def containsCI (hay needle : String) : Bool :=
  subIn needle.toLower.toList hay.toLower.toList

/-- Modelled from the spec: lowercase the host portion (the text before the
first slash) of a scheme-less reference remainder. -/
def lowerHost (hostPath : String) : String :=
  match hostPath.splitOn "/" with
  | [] => hostPath.toLower
  | h :: rest => String.intercalate "/" (h.toLower :: rest)

/-- Modelled from the spec: lowercase the scheme and host of a canonical
reference; references without a scheme separator are left unchanged. -/
def lowerSchemeHost (base : String) : String :=
  match base.splitOn "://" with
  | [s, hp] => s.toLower ++ "://" ++ lowerHost hp
  | _ => base

/-- Tracking query parameters (the `utm_` family) are stripped before dedup
comparison. -/
def isTracking (p : String) : Bool :=
  p.startsWith "utm_"

/-- Drop tracking parameters from a query string. -/
def stripTracking (queryStr : String) : List String :=
  (queryStr.splitOn "&").filter (fun p => !(isTracking p))

/-- Modelled from the spec: normalization of a SourceResult canonical
reference before dedup comparison: the scheme and host are lowercased and
tracking parameters are stripped. -/
def normalizeRef (ref : String) : String :=
  match ref.splitOn "?" with
  | [] => ref
  | base :: rest =>
    let base' := lowerSchemeHost base
    if rest = [] then base'
    else
      match stripTracking (String.intercalate "?" rest) with
      | [] => base'
      | ps => base' ++ "?" ++ String.intercalate "&" ps

/-- The normalized canonical reference of a raw result, the dedup key of the
ranker. -/
def refOf (r : SourceResult) : String :=
  normalizeRef r.canonicalRef

/-! ### QueryBuilder -/

/-- Modelled from the spec: parsing of the untyped query-type string into the
closed enumeration; any other string is rejected. -/
def parseQueryType (s : String) : Option QueryType :=
  if s = "api_doc" then some .api_doc
  else if s = "error_solution" then some .error_solution
  else if s = "implementation" then some .implementation
  else none

/-- Modelled from the spec: the QueryBuilder. It fails with a ValidationError
exactly when the query type is outside the closed enumeration or the query is
empty after trimming; otherwise it emits a canonical request, plus a broadened
secondary request (the function name dropped) when the primary is
under-specified (library or function missing). -/
def buildQueries (p : ToolParams) : Except ValidationError (List QueryRequest) :=
  match parseQueryType p.query_type with
  | none => .error (.unsupportedQueryType p.query_type)
  | some qt =>
    if p.query.trim = "" then .error .emptyQuery
    else
      let primary : QueryRequest :=
        ⟨qt, p.query.trim, p.library, p.functionName, p.language, p.file_content⟩
      if p.library.isNone || p.functionName.isNone then
        .ok [primary, { primary with functionName := none }]
      else
        .ok [primary]

/-! ### ResultRanker: scoring and deduplication -/

/-- Modelled from the spec: the source best suited to each query type. -/
def preferredSource : QueryType → SourceId
  | .api_doc => .officialDoc
  | .error_solution => .communityQA
  | .implementation => .codeSearch

/-- Modelled from the spec: the base weight keyed by how well a result's
source matches the query type's preferred source.  The concrete weights are
an implementation choice left open by the specification; a preferred source
scores strictly higher. -/
def basePoints (qt : QueryType) (s : SourceId) : ℚ :=
  if s = preferredSource qt then 3 else 1

/-- Modelled from the spec: the source priority for a query type, used as a
tie-break after the quality signal. -/
def sourcePriority (qt : QueryType) (s : SourceId) : ℕ :=
  if s = preferredSource qt then 1 else 0

/-- Weight of the exact library/function name boost. -/
def wName : ℚ := 2

/-- Weight of the "contains code block" boost. -/
def wCode : ℚ := 1

/-- Weight of the "has solution marker" boost. -/
def wSol : ℚ := 3 / 2

/-- Weight of the source-supplied quality signal; weighted lowest among the
factors since it is not always present. -/
def wQual : ℚ := 1 / 2

/-- Modelled from the spec: the exact, case-insensitive name-match boost
condition: the result's title or snippet contains the library name and/or
the function name of the query. -/
def matchesName (q : QueryRequest) (r : SourceResult) : Bool :=
  (match q.library with
   | some l => containsCI r.title l || containsCI r.snippet l
   | none => false) ||
  (match q.functionName with
   | some f => containsCI r.title f || containsCI r.snippet f
   | none => false)

/-- A deduplicated result: the surviving copy of a group of raw results
sharing one normalized canonical reference, its boost conditions unioned
across the group (quality absent is treated as 0). -/
structure MergedResult where
  source : SourceId
  title : String
  canonicalRef : String
  snippet : String
  containsCodeBlock : Bool
  hasSolutionMarker : Bool
  quality : ℚ
  nameMatched : Bool
deriving DecidableEq

/-- Of two duplicate copies, keep the one with the richer (longer non-empty)
snippet; the earlier copy is kept on a tie. -/
def pickRicher (a b : SourceResult) : SourceResult :=
  if a.snippet.length < b.snippet.length then b else a

/-- The surviving copy of a duplicate group, obtained by folding
`pickRicher` over the group in fan-out order. -/
def survivorOf (a : SourceResult) (rest : List SourceResult) : SourceResult :=
  rest.foldl pickRicher a

/-- Modelled from the spec: collapse a non-empty duplicate group into one
entry: the survivor is the copy with the richer snippet, and the score-feeding
boost conditions (code block, solution marker, name match) and the quality
signal are the union (pointwise or / maximum) over the whole group. -/
def mergeGroup (q : QueryRequest) (a : SourceResult) (rest : List SourceResult) :
    MergedResult :=
  let surv := survivorOf a rest
  { source := surv.source
    title := surv.title
    canonicalRef := surv.canonicalRef
    snippet := surv.snippet
    containsCodeBlock := (a :: rest).any (fun r => r.containsCodeBlock)
    hasSolutionMarker := (a :: rest).any (fun r => r.hasSolutionMarker)
    quality := ((a :: rest).map (fun r => r.quality.getD 0)).foldl max 0
    nameMatched := (a :: rest).any (fun r => matchesName q r) }

/-- The duplicate group of a normalized reference inside a merged fan-out
list, in fan-out order. -/
def groupFor (rs : List SourceResult) (k : String) : List SourceResult :=
  rs.filter (fun r => refOf r = k)

/-- Collapse one (possibly empty) duplicate group; the empty case never
arises for keys drawn from the list itself. -/
def mergeList (q : QueryRequest) (k : String) : List SourceResult → MergedResult
  | [] =>
    { source := .officialDoc, title := "", canonicalRef := k, snippet := ""
      containsCodeBlock := false, hasSolutionMarker := false, quality := 0
      nameMatched := false }
  | a :: rest => mergeGroup q a rest

/-- The distinct elements of a list, keeping the first occurrence of each. -/
def firstKeys (l : List String) : List String :=
  (l.reverse.dedup).reverse

/-- Modelled from the spec: deduplication by normalized canonical reference,
performed before scoring: one merged entry per distinct normalized reference
of the input, each collapsing its whole duplicate group. -/
def dedupByRef (q : QueryRequest) (rs : List SourceResult) : List MergedResult :=
  (firstKeys (rs.map refOf)).map (fun k => mergeList q k (groupFor rs k))

/-- Modelled from the spec: the score of a deduplicated result: a weighted
sum of the source/query-type base weight, the exact-name boost, the
code-block boost, the solution-marker boost, and (weighted lowest) the
quality signal. -/
def scoreOf (qt : QueryType) (m : MergedResult) : ℚ :=
  basePoints qt m.source +
    (if m.nameMatched then wName else 0) +
    (if m.containsCodeBlock then wCode else 0) +
    (if m.hasSolutionMarker then wSol else 0) +
    wQual * m.quality

/-- The ordering key of a deduplicated result: computed score, then quality
signal, then source priority (all compared descending). -/
def keyOf (qt : QueryType) (m : MergedResult) : ℚ × ℚ × ℕ :=
  (scoreOf qt m, m.quality, sourcePriority qt m.source)

/-- Strict lexicographic order on ranking keys. -/
def keyLT (a b : ℚ × ℚ × ℕ) : Prop :=
  a.1 < b.1 ∨ (a.1 = b.1 ∧ (a.2.1 < b.2.1 ∨ (a.2.1 = b.2.1 ∧ a.2.2 < b.2.2)))

instance : DecidableRel keyLT := fun a b => by
  unfold keyLT
  infer_instance

/-- A deduplicated result paired with its original fan-out position (the
position of its reference group in the merged adapter output). -/
structure Entry where
  m : MergedResult
  idx : ℕ
deriving DecidableEq

/-- Modelled from the spec: the sort order of the ranker: descending score,
ties broken by higher quality signal, then source priority for the query
type, then original fan-out order. -/
def entryLE (qt : QueryType) (a b : Entry) : Prop :=
  keyLT (keyOf qt b.m) (keyOf qt a.m) ∨
    (keyOf qt a.m = keyOf qt b.m ∧ a.idx ≤ b.idx)

instance (qt : QueryType) : DecidableRel (entryLE qt) := fun a b => by
  unfold entryLE
  infer_instance

/-- Comparison of deduplicated results by ranking key only (descending),
forgetting fan-out positions. -/
def mLE (qt : QueryType) (x y : MergedResult) : Prop :=
  keyLT (keyOf qt y) (keyOf qt x) ∨ keyOf qt x = keyOf qt y

instance : RightCommutative (max : ℚ → ℚ → ℚ) :=
  ⟨fun b a1 a2 => by rw [max_assoc, max_comm a1 a2, ← max_assoc]⟩

/-- Modelled from the spec: deduplicate the merged fan-out list, attach
fan-out positions, and sort by the ranker's order. -/
def rankEntries (q : QueryRequest) (rs : List SourceResult) : List Entry :=
  List.insertionSort (entryLE q.queryType)
    ((dedupByRef q rs).enum.map (fun p => ⟨p.2, p.1⟩))

/-- Modelled from the spec: the caller-visible ranked output: a deduplicated
result paired with its computed score and rank position. -/
structure RankedResult where
  result : MergedResult
  score : ℚ
  rank : ℕ
deriving DecidableEq

/-- The configured output cap of the ranker. -/
def defaultTopK : ℕ := 5

/-- Modelled from the spec: the full ranker: deduplicate, score, sort, cap at
the top-K, and attach rank positions. -/
def rankResults (q : QueryRequest) (K : ℕ) (rs : List SourceResult) :
    List RankedResult :=
  ((((rankEntries q rs).map Entry.m).take K).enum).map
    (fun p => ⟨p.2, scoreOf q.queryType p.2, p.1⟩)

/-! ### RetrievalOrchestrator -/

/-- Modelled from the spec: the outcome of an orchestrated fan-out: either a
non-empty ranked result list, or the first-class empty-result outcome.  No
error constructor exists: adapter faults are absorbed at the adapter
boundary as empty lists and never surface as pipeline errors. -/
inductive Outcome where
  | results (rs : List RankedResult)
  | empty
deriving DecidableEq

/-- Modelled from the spec: the orchestrator merges whatever the adapters
returned; if every adapter returned an empty list the outcome is the
empty-result outcome, otherwise the ranked merge. -/
def orchestrate (q : QueryRequest) (K : ℕ)
    (adapterOutputs : List (List SourceResult)) : Outcome :=
  let merged := adapterOutputs.flatten
  if merged = [] then .empty else .results (rankResults q K merged)

/-- Modelled from the spec: the end-to-end pipeline: build queries (the only
failure point), then fan out and rank; the adapters are modelled as a
function from a request to the per-adapter completed output lists. -/
def runPipeline (p : ToolParams) (K : ℕ)
    (fetch : QueryRequest → List (List SourceResult)) :
    Except ValidationError Outcome :=
  match buildQueries p with
  | .error e => .error e
  | .ok [] => .ok .empty
  | .ok (q :: qs) => .ok (orchestrate q K ((q :: qs).flatMap fetch))

/-- The caller-facing message of the empty-result outcome. -/
def noResultsMessage : String := "No results found."

/-- Modelled from the spec: per-result caller-facing formatting: a heading
naming the source and a body with the snippet and canonical reference. -/
def formatResult (r : RankedResult) : String :=
  "## " ++ r.result.title ++ "\n" ++ r.result.snippet ++ "\n" ++
    r.result.canonicalRef

/-- Modelled from the spec: the caller-facing output: the formatted results,
or the "no results" message for the empty outcome. -/
def formatOutcome : Outcome → String
  | .results rs => String.intercalate "\n\n" (rs.map formatResult)
  | .empty => noResultsMessage

/-! ### Configuration gating (from src/openhands/rag/README.md) -/

/-- The configuration surface consumed by the core, from the README:
`enable_code_rag` enables the feature, and the tool additionally requires the
web browsing capability (`enable_browsing`). -/
structure RagConfig where
  enable_code_rag : Bool
  enable_browsing : Bool
deriving DecidableEq

/-- From the README (Configuration): the Code-Aware RAG tool is enabled by
`enable_code_rag = true` and requires the web browsing capability to be
enabled as well (`enable_browsing = true`); the core is invoked only when
both hold. -/
def toolAvailable (c : RagConfig) : Bool :=
  c.enable_code_rag && c.enable_browsing

/-! ### Image-analysis component
(src/frontend/src/components/features/chat/image-analysis-button.tsx) -/

/-- An uploaded image file (opaque content identified by its name). -/
structure ImageFile where
  name : String
deriving DecidableEq

/-- The React state of the ImageAnalysis component: selected image, preview
URL, analysis type, custom prompt, and the analyzing flag. -/
structure CompState where
  selectedImage : Option ImageFile
  previewUrl : Option String
  analysisType : String
  prompt : String
  isAnalyzing : Bool
deriving DecidableEq

/-- The possible outcomes of the fetch to /api/images/upload: an ok response
carrying the parsed analysis type and content, a non-ok HTTP status (which
the code turns into a thrown error), or a thrown network failure. -/
inductive FetchOutcome where
  | ok (analysis_type : String) (content : String)
  | httpError (status : ℕ)
  | networkThrow
deriving DecidableEq

/-- Observable side effects of the component, in emission order. -/
inductive Effect where
  | toastErr (msg : String)
  | networkRequest (file : ImageFile) (analysisType : String) (prompt : Option String)
  | complete (result : String)
  | revokeUrl (url : String)
deriving DecidableEq

/-- The clearImage handler: revoke the preview URL if present, then clear the
selected image and preview URL. -/
def clearImage (s : CompState) : CompState × List Effect :=
  ({ s with selectedImage := none, previewUrl := none },
    match s.previewUrl with
    | some u => [.revokeUrl u]
    | none => [])

/-- The analyzeImage handler.  With no selected image it shows an error toast
and returns at once.  Otherwise it sets the analyzing flag, issues the upload
request (the prompt field only when non-empty), and on an ok response formats
the result, delivers it to the completion callback and clears the image; any
failure (non-ok status or thrown fetch) produces an error toast and keeps the
image.  The analyzing flag is reset in all completion paths. -/
def analyzeImage (s : CompState) (outcome : FetchOutcome) : CompState × List Effect :=
  match s.selectedImage with
  | none => (s, [.toastErr "Please select an image first"])
  | some img =>
    let req : Effect :=
      .networkRequest img s.analysisType (if s.prompt = "" then none else some s.prompt)
    match outcome with
    | .ok at_ content =>
      let formatted := "## Image Analysis: " ++ at_ ++ "\n\n" ++ content
      let cleared := clearImage { s with isAnalyzing := true }
      ({ cleared.1 with isAnalyzing := false }, req :: .complete formatted :: cleared.2)
    | .httpError _ => ({ s with isAnalyzing := false }, [req, .toastErr "Failed to analyze image"])
    | .networkThrow => ({ s with isAnalyzing := false }, [req, .toastErr "Failed to analyze image"])

/-- The disabled condition of the Analyze button: no image selected or an
analysis is in flight. -/
def buttonDisabled (s : CompState) : Bool :=
  s.selectedImage.isNone || s.isAnalyzing

/-- The parent ImageAnalysisButton completion handler: forward the result to
its own callback and close the modal. -/
def handleAnalysisComplete (_isModalOpen : Bool) (result : String) : Bool × String :=
  (false, result)

/-! ### Concrete instances used by witnesses and counterexamples -/

/-- A component state with no selected image. -/
def sNoImage : CompState := ⟨none, none, "describe", "", false⟩

/-- A component state with a selected image and preview. -/
def sWithImage : CompState :=
  ⟨some ⟨"cat.png"⟩, some "blob:cat", "ocr", "read it", false⟩

/-! ### Concrete retrieval instances -/

/-- A concrete api_doc query. -/
def qApi : QueryRequest := ⟨.api_doc, "q", none, none, none, none⟩

/-- A preferred-source result with a code block and no quality signal:
score 4, quality 0. -/
def rDoc : SourceResult :=
  ⟨.officialDoc, "A", "https://a.com/x", "sss", true, false, none⟩

/-- A community result with code block, solution marker and full quality:
score 1 + 1 + 3/2 + 1/2 = 4, quality 1. -/
def rQA : SourceResult :=
  ⟨.communityQA, "B", "https://b.com/y", "ttt", true, true, some 1⟩

/-- A short-snippet copy from the preferred source (individual score 3). -/
def rShort : SourceResult :=
  ⟨.officialDoc, "S", "https://dup.com/p", "x", false, false, none⟩

/-- A richer-snippet duplicate of [rShort] from a non-preferred source
(individual score 1). -/
def rLong : SourceResult :=
  ⟨.codeSearch, "L", "https://dup.com/p", "xxxx", false, false, none⟩

/-- One of two duplicate copies whose snippets tie in length. -/
def rTie1 : SourceResult :=
  ⟨.officialDoc, "T1", "https://t.com/p", "aa", false, false, none⟩

/-- The other duplicate copy with an equal-length snippet. -/
def rTie2 : SourceResult :=
  ⟨.communityQA, "T2", "https://t.com/p", "bb", false, false, none⟩

/-! ### Theorems for the image-analysis component -/

/-- C8: if analyzeImage runs while no image is selected, it emits exactly the
error toast and returns with the whole component state unchanged; in
particular no network request effect is issued. -/
theorem C8_analyzeImage_no_image (s : CompState) (o : FetchOutcome)
    (h : s.selectedImage = none) :
    analyzeImage s o = (s, [Effect.toastErr "Please select an image first"]) := by
  unfold analyzeImage
  rw [h]

/-- C8 witness: the theorem applied at a concrete state with no image. -/
theorem C8_analyzeImage_no_image_witness :
    sNoImage.selectedImage = none ∧
      analyzeImage sNoImage FetchOutcome.networkThrow =
        (sNoImage, [Effect.toastErr "Please select an image first"]) :=
  ⟨rfl, C8_analyzeImage_no_image sNoImage FetchOutcome.networkThrow rfl⟩

/-- C9: on an ok response the completion callback receives exactly
"## Image Analysis: " ++ analysis_type ++ two newlines ++ content, the
selected image and preview URL are cleared, and the parent completion handler
closes the modal; on any failing outcome no completion effect is emitted and
the selected image is retained. -/
theorem C9_analyzeImage_result (s : CompState) (img : ImageFile)
    (h : s.selectedImage = some img) :
    (∀ at_ ct,
      analyzeImage s (FetchOutcome.ok at_ ct) =
        ({ s with selectedImage := none, previewUrl := none, isAnalyzing := false },
          Effect.networkRequest img s.analysisType
              (if s.prompt = "" then none else some s.prompt) ::
            Effect.complete ("## Image Analysis: " ++ at_ ++ "\n\n" ++ ct) ::
            (match s.previewUrl with
             | some u => [Effect.revokeUrl u]
             | none => []))) ∧
    (∀ o, (∀ at_ ct, o ≠ FetchOutcome.ok at_ ct) →
      (∀ r, Effect.complete r ∉ (analyzeImage s o).2) ∧
        (analyzeImage s o).1.selectedImage = some img) ∧
    (∀ b r, handleAnalysisComplete b r = (false, r)) := by
  refine ⟨?_, ?_, fun b r => rfl⟩
  · intro at_ ct
    simp [analyzeImage, clearImage, h]
  · intro o ho
    cases o with
    | ok at_ ct => exact absurd rfl (ho at_ ct)
    | httpError n =>
      refine ⟨fun r => ?_, ?_⟩ <;> simp [analyzeImage, h]
    | networkThrow =>
      refine ⟨fun r => ?_, ?_⟩ <;> simp [analyzeImage, h]

/-- C9 witness: the theorem applied at a concrete state with an image, with
the success shape evaluated on a concrete response and the failure shape on a
concrete thrown fetch. -/
theorem C9_analyzeImage_result_witness :
    sWithImage.selectedImage = some ⟨"cat.png"⟩ ∧
      analyzeImage sWithImage (FetchOutcome.ok "ocr" "hello") =
        ({ sWithImage with selectedImage := none, previewUrl := none, isAnalyzing := false },
          [Effect.networkRequest ⟨"cat.png"⟩ "ocr" (some "read it"),
            Effect.complete "## Image Analysis: ocr\n\nhello",
            Effect.revokeUrl "blob:cat"]) :=
  ⟨rfl, by
    have h := (C9_analyzeImage_result sWithImage ⟨"cat.png"⟩ rfl).1 "ocr" "hello"
    simpa [sWithImage] using h⟩

/-- C10: every invocation of analyzeImage that starts an analysis (an image
is selected) ends with the analyzing flag false, and after a failed attempt
(non-ok status or thrown fetch) the Analyze button is enabled again. -/
theorem C10_analyzing_reset (s : CompState) (img : ImageFile) (o : FetchOutcome)
    (h : s.selectedImage = some img) :
    (analyzeImage s o).1.isAnalyzing = false ∧
    (∀ n, o = FetchOutcome.httpError n → buttonDisabled (analyzeImage s o).1 = false) ∧
    (o = FetchOutcome.networkThrow → buttonDisabled (analyzeImage s o).1 = false) := by
  cases o with
  | ok at_ ct =>
    refine ⟨?_, ?_, ?_⟩
    · simp [analyzeImage, clearImage, h]
    · intro n hn
      exact absurd hn (by simp)
    · intro hn
      exact absurd hn (by simp)
  | httpError n =>
    refine ⟨?_, ?_, ?_⟩
    · simp [analyzeImage, h]
    · intro n' hn
      simp [analyzeImage, buttonDisabled, h]
    · intro hn
      exact absurd hn (by simp)
  | networkThrow =>
    refine ⟨?_, ?_, ?_⟩
    · simp [analyzeImage, h]
    · intro n' hn
      exact absurd hn (by simp)
    · intro hn
      simp [analyzeImage, buttonDisabled, h]

/-- C10 witness: the theorem applied at a concrete state and a concrete
failing outcome. -/
theorem C10_analyzing_reset_witness :
    sWithImage.selectedImage = some ⟨"cat.png"⟩ ∧
      buttonDisabled (analyzeImage sWithImage FetchOutcome.networkThrow).1 = false :=
  ⟨rfl, (C10_analyzing_reset sWithImage ⟨"cat.png"⟩ FetchOutcome.networkThrow rfl).2.2 rfl⟩

/-! ### Theorems for the configuration gating -/

/-- C7 counterexample: with the feature flag on but browsing unavailable, the
tool is not available at all (the README requires the browsing capability),
so retrieval is disabled wholesale by the absence of browsing, contrary to
the claim that the orchestrator still functions for adapters that do not
require browsing. -/
theorem C7_gating_counterexample :
    toolAvailable ⟨true, false⟩ = false := rfl

/-- C7 (amended): if the feature flag is off the core is never invoked; and
the tool additionally requires the browsing capability, so it is available
exactly when both flags are on. -/
theorem C7_gating (c : RagConfig) :
    (c.enable_code_rag = false → toolAvailable c = false) ∧
    (toolAvailable c = true → c.enable_code_rag = true ∧ c.enable_browsing = true) := by
  unfold toolAvailable
  constructor
  · intro h
    rw [h]
    rfl
  · intro h
    exact Bool.and_eq_true_iff.mp h

/-- C7 witness: the theorem applied at a concrete configuration with the
feature flag off. -/
theorem C7_gating_witness :
    RagConfig.enable_code_rag ⟨false, true⟩ = false ∧
      toolAvailable ⟨false, true⟩ = false :=
  ⟨rfl, (C7_gating ⟨false, true⟩).1 rfl⟩

/-! ### Theorems for the QueryBuilder and the orchestrator -/

/-- C3: the pipeline fails if and only if the query type is outside the
closed enumeration or the query is empty after trimming; and every pipeline
failure is exactly the QueryBuilder's ValidationError, surfaced unchanged and
independently of the adapters (no retrieval is attempted). -/
theorem C3_validation (p : ToolParams) (K : ℕ)
    (fetch : QueryRequest → List (List SourceResult)) :
    ((∃ e, runPipeline p K fetch = .error e) ↔
      (parseQueryType p.query_type = none ∨ p.query.trim = "")) ∧
    (∀ e, runPipeline p K fetch = .error e ↔ buildQueries p = .error e) := by
  rcases hpt : parseQueryType p.query_type with _ | qt
  · constructor
    · simp [runPipeline, buildQueries, hpt]
    · intro e
      simp [runPipeline, buildQueries, hpt]
  · by_cases htrim : p.query.trim = ""
    · constructor
      · simp [runPipeline, buildQueries, hpt, htrim]
      · intro e
        simp [runPipeline, buildQueries, hpt, htrim]
    · by_cases hlib : p.library.isNone || p.functionName.isNone
      · constructor
        · simp [runPipeline, buildQueries, hpt, htrim, hlib]
        · intro e
          simp [runPipeline, buildQueries, hpt, htrim, hlib]
      · constructor
        · simp [runPipeline, buildQueries, hpt, htrim, hlib]
        · intro e
          simp [runPipeline, buildQueries, hpt, htrim, hlib]

/-- C3 witness: a concrete unsupported query type fails, a concrete valid
request does not. -/
theorem C3_validation_witness :
    (∃ e, runPipeline ⟨"bogus", "q", none, none, none, none⟩ 5 (fun _ => []) = .error e) ∧
      ¬ (∃ e, runPipeline ⟨"api_doc", "q", none, none, none, none⟩ 5 (fun _ => []) = .error e) :=
  ⟨(C3_validation ⟨"bogus", "q", none, none, none, none⟩ 5 (fun _ => [])).1.mpr
      (Or.inl (by with_unfolding_all decide)),
    fun hc =>
      by
        rcases (C3_validation ⟨"api_doc", "q", none, none, none, none⟩ 5
            (fun _ => [])).1.mp hc with h | h
        · exact absurd h (by with_unfolding_all decide)
        · exact absurd h (by with_unfolding_all decide)⟩

/-- C4: the orchestrator reports the first-class empty outcome exactly when
every adapter returned an empty list; it succeeds with the ranked merge as
soon as one adapter returned one result; the empty outcome is surfaced as
the "no results" message; and a validated pipeline run always ends in an ok
outcome, never an error. -/
theorem C4_empty_outcome (q : QueryRequest) (K : ℕ)
    (outs : List (List SourceResult)) :
    (orchestrate q K outs = Outcome.empty ↔ ∀ l ∈ outs, l = []) ∧
    ((∃ l ∈ outs, l ≠ []) ↔
      orchestrate q K outs = Outcome.results (rankResults q K outs.flatten)) ∧
    (formatOutcome Outcome.empty = noResultsMessage) ∧
    (∀ (p : ToolParams) (fetch : QueryRequest → List (List SourceResult))
        (q' : QueryRequest) (qs' : List QueryRequest),
      buildQueries p = .ok (q' :: qs') →
        runPipeline p K fetch = .ok (orchestrate q' K ((q' :: qs').flatMap fetch))) := by
  refine ⟨?_, ?_, rfl, ?_⟩
  · by_cases hm : outs.flatten = []
    · simp [orchestrate, hm]
      exact List.flatten_eq_nil_iff.mp hm
    · simp [orchestrate, hm]
      have hne := mt List.flatten_eq_nil_iff.mpr hm
      push_neg at hne
      exact hne
  · by_cases hm : outs.flatten = []
    · simp [orchestrate, hm]
      intro l hl
      exact List.flatten_eq_nil_iff.mp hm l hl
    · simp [orchestrate, hm]
      have hne := mt List.flatten_eq_nil_iff.mpr hm
      push_neg at hne
      exact hne
  · intro p fetch q' qs' hb
    simp [runPipeline, hb]

/-- C4 witness: the theorem applied at concrete adapter outputs: all-empty
outputs give the empty outcome, one non-empty output gives ranked results,
and a validated pipeline run ends in ok. -/
theorem C4_empty_outcome_witness :
    orchestrate qApi 5 [[], []] = Outcome.empty ∧
    orchestrate qApi 5 [[rDoc], []] =
      Outcome.results (rankResults qApi 5 [[rDoc], []].flatten) ∧
    runPipeline ⟨"api_doc", "q", none, none, none, none⟩ 5 (fun _ => [[rDoc]]) =
      .ok (orchestrate qApi 5 ([qApi, qApi].flatMap (fun _ => [[rDoc]]))) :=
  ⟨(C4_empty_outcome qApi 5 [[], []]).1.mpr (by simp),
   (C4_empty_outcome qApi 5 [[rDoc], []]).2.1.mp ⟨[rDoc], by simp, by simp⟩,
   (C4_empty_outcome qApi 5 []).2.2.2 _ _ qApi [qApi] (by with_unfolding_all rfl)⟩

/-- C2 counterexample: two results with equal computed scores (4 and 4) whose
arrival order is A before B, yet the output lists B before A, because the
tie is broken by the higher quality signal before original fan-out order.
This refutes the part of the claim asserting that any two results with equal
scores appear in their original fan-out order. -/
theorem C2_stability_counterexample :
    (rankResults qApi 5 [rDoc, rQA]).map (fun e => (e.result.title, e.score)) =
      [("B", 4), ("A", 4)] := by
  with_unfolding_all decide

/-- C1 counterexample: two duplicate copies of one normalized reference where
the surviving copy (the richer snippet, title L, merged score 1) is not the
higher-scored copy (title S would individually score 3): richer-snippet
survival and higher-score survival conflict, so the claim's description of
the survivor as "the higher-scored copy with the richer snippet" fails. -/
theorem C1_survivor_counterexample :
    (rankResults qApi 5 [rShort, rLong]).map
        (fun e => (e.result.title, e.result.snippet, e.score)) =
      [("L", "xxxx", 1)] ∧
    scoreOf QueryType.api_doc (mergeList qApi (refOf rShort) [rShort]) = 3 := by
  constructor <;> with_unfolding_all decide

/-- C5 counterexample: two adapter outputs containing duplicate copies of one
reference with equal-length snippets; permuting the arrival order changes
which copy survives deduplication, and the final ranked lists differ (even in
score), beyond the documented stable tie-break. -/
theorem C5_commutativity_counterexample :
    ([[rTie1], [rTie2]] : List (List SourceResult)).Perm [[rTie2], [rTie1]] ∧
      rankResults qApi 5 [[rTie1], [rTie2]].flatten ≠
        rankResults qApi 5 [[rTie2], [rTie1]].flatten := by
  constructor <;> with_unfolding_all decide

/-! ### Order-theoretic facts about the ranking order -/

/-- Transitivity of the strict lexicographic key order. -/
theorem keyLT_trans {a b c : ℚ × ℚ × ℕ} (h1 : keyLT a b) (h2 : keyLT b c) :
    keyLT a c := by
  obtain ⟨a1, a2, a3⟩ := a
  obtain ⟨b1, b2, b3⟩ := b
  obtain ⟨c1, c2, c3⟩ := c
  unfold keyLT at *
  dsimp only at *
  rcases h1 with h1 | ⟨e1, h1⟩
  · rcases h2 with h2 | ⟨e2, h2⟩
    · exact Or.inl (lt_trans h1 h2)
    · exact Or.inl (lt_of_lt_of_eq h1 e2)
  · rcases h2 with h2 | ⟨e2, h2⟩
    · exact Or.inl (lt_of_eq_of_lt e1 h2)
    · refine Or.inr ⟨e1.trans e2, ?_⟩
      rcases h1 with h1 | ⟨f1, h1⟩
      · rcases h2 with h2 | ⟨f2, h2⟩
        · exact Or.inl (lt_trans h1 h2)
        · exact Or.inl (lt_of_lt_of_eq h1 f2)
      · rcases h2 with h2 | ⟨f2, h2⟩
        · exact Or.inl (lt_of_eq_of_lt f1 h2)
        · exact Or.inr ⟨f1.trans f2, Nat.lt_trans h1 h2⟩

/-- Asymmetry of the strict lexicographic key order. -/
theorem keyLT_asymm {a b : ℚ × ℚ × ℕ} (h1 : keyLT a b) (h2 : keyLT b a) :
    False := by
  obtain ⟨a1, a2, a3⟩ := a
  obtain ⟨b1, b2, b3⟩ := b
  unfold keyLT at *
  dsimp only at *
  rcases h1 with h1 | ⟨e1, h1⟩
  · rcases h2 with h2 | ⟨e2, h2⟩
    · exact lt_asymm h1 h2
    · exact absurd (lt_of_lt_of_eq h1 e2) (lt_irrefl a1)
  · rcases h2 with h2 | ⟨e2, h2⟩
    · exact absurd (lt_of_lt_of_eq h2 e1) (lt_irrefl b1)
    · rcases h1 with h1 | ⟨f1, h1⟩
      · rcases h2 with h2 | ⟨f2, h2⟩
        · exact lt_asymm h1 h2
        · exact absurd (lt_of_lt_of_eq h1 f2) (lt_irrefl a2)
      · rcases h2 with h2 | ⟨f2, h2⟩
        · exact absurd (lt_of_lt_of_eq h2 f1) (lt_irrefl b2)
        · exact Nat.lt_asymm h1 h2

/-- Trichotomy of the strict lexicographic key order. -/
theorem keyLT_trichotomy (a b : ℚ × ℚ × ℕ) :
    keyLT a b ∨ a = b ∨ keyLT b a := by
  obtain ⟨a1, a2, a3⟩ := a
  obtain ⟨b1, b2, b3⟩ := b
  unfold keyLT
  dsimp only
  rcases lt_trichotomy a1 b1 with h | h | h
  · exact Or.inl (Or.inl h)
  · rcases lt_trichotomy a2 b2 with h' | h' | h'
    · exact Or.inl (Or.inr ⟨h, Or.inl h'⟩)
    · rcases Nat.lt_trichotomy a3 b3 with h'' | h'' | h''
      · exact Or.inl (Or.inr ⟨h, Or.inr ⟨h', h''⟩⟩)
      · subst h
        subst h'
        subst h''
        exact Or.inr (Or.inl rfl)
      · exact Or.inr (Or.inr (Or.inr ⟨h.symm, Or.inr ⟨h'.symm, h''⟩⟩))
    · exact Or.inr (Or.inr (Or.inr ⟨h.symm, Or.inl h'⟩))
  · exact Or.inr (Or.inr (Or.inl h))

/-- Totality of the ranking order on entries. -/
theorem entryLE_total (qt : QueryType) (a b : Entry) :
    entryLE qt a b ∨ entryLE qt b a := by
  unfold entryLE
  rcases keyLT_trichotomy (keyOf qt a.m) (keyOf qt b.m) with h | h | h
  · exact Or.inr (Or.inl h)
  · rcases Nat.le_total a.idx b.idx with hi | hi
    · exact Or.inl (Or.inr ⟨h, hi⟩)
    · exact Or.inr (Or.inr ⟨h.symm, hi⟩)
  · exact Or.inl (Or.inl h)

/-- Transitivity of the ranking order on entries. -/
theorem entryLE_trans {qt : QueryType} {a b c : Entry}
    (h1 : entryLE qt a b) (h2 : entryLE qt b c) : entryLE qt a c := by
  unfold entryLE at *
  rcases h1 with h1 | ⟨e1, i1⟩
  · rcases h2 with h2 | ⟨e2, i2⟩
    · exact Or.inl (keyLT_trans h2 h1)
    · exact Or.inl (e2 ▸ h1)
  · rcases h2 with h2 | ⟨e2, i2⟩
    · refine Or.inl ?_
      rw [e1]
      exact h2
    · exact Or.inr ⟨e1.trans e2, Nat.le_trans i1 i2⟩

instance (qt : QueryType) : IsTotal Entry (entryLE qt) :=
  ⟨entryLE_total qt⟩

instance (qt : QueryType) : IsTrans Entry (entryLE qt) :=
  ⟨fun _ _ _ h1 h2 => entryLE_trans h1 h2⟩

/-- The ranking order bounds the computed score: an entry placed no later
never has a smaller score. -/
theorem entryLE_score {qt : QueryType} {a b : Entry} (h : entryLE qt a b) :
    scoreOf qt b.m ≤ scoreOf qt a.m := by
  unfold entryLE at h
  rcases h with h | ⟨e, _⟩
  · unfold keyLT at h
    rcases h with h | ⟨e, _⟩
    · exact le_of_lt h
    · exact le_of_eq e
  · exact le_of_eq (congrArg Prod.fst e).symm

/-- C2 (amended): the ranker's output is sorted by descending computed
score, with ties broken, in order, by higher quality signal, then source
priority for the query type, then original fan-out order; entries whose
score, quality and priority all tie appear in original fan-out order.  The
first conjunct states the full tie-break order on the sorted entries (whose
idx field is the fan-out position), the second the caller-visible descending
scores. -/
theorem C2_ranking_order (q : QueryRequest) (K : ℕ) (rs : List SourceResult) :
    List.Sorted (entryLE q.queryType) (rankEntries q rs) ∧
    List.Sorted (fun a b : RankedResult => b.score ≤ a.score)
      (rankResults q K rs) := by
  have h1 : List.Sorted (entryLE q.queryType) (rankEntries q rs) := by
    unfold rankEntries
    exact List.sorted_insertionSort _ _
  refine ⟨h1, ?_⟩
  have h2 : List.Pairwise
      (fun x y : MergedResult => scoreOf q.queryType y ≤ scoreOf q.queryType x)
      ((rankEntries q rs).map Entry.m) := by
    rw [List.pairwise_map]
    exact h1.imp (fun h => entryLE_score h)
  have h3 := List.Pairwise.sublist (List.take_sublist K _) h2
  rw [← List.enum_map_snd (((rankEntries q rs).map Entry.m).take K),
    List.pairwise_map] at h3
  unfold rankResults
  exact List.pairwise_map.mpr h3

/-! ### Deduplication facts -/

/-- pickRicher returns one of its two arguments. -/
theorem pickRicher_cases (a b : SourceResult) :
    pickRicher a b = a ∨ pickRicher a b = b := by
  unfold pickRicher
  split
  · exact Or.inr rfl
  · exact Or.inl rfl

/-- The surviving copy of a duplicate group is a member of the group. -/
theorem survivorOf_mem (rest : List SourceResult) (a : SourceResult) :
    survivorOf a rest ∈ a :: rest := by
  induction rest generalizing a with
  | nil => exact List.mem_singleton.mpr rfl
  | cons b bs ih =>
    have h := ih (pickRicher a b)
    rcases pickRicher_cases a b with hc | hc
    · unfold survivorOf at *
      rw [List.foldl_cons]
      rcases List.mem_cons.mp h with h' | h'
      · rw [h'] at *
        rw [hc]
        exact List.mem_cons_self _ _
      · exact List.mem_cons_of_mem _ (List.mem_cons_of_mem _ h')
    · unfold survivorOf at *
      rw [List.foldl_cons]
      rcases List.mem_cons.mp h with h' | h'
      · rw [h'] at *
        rw [hc]
        exact List.mem_cons_of_mem _ (List.mem_cons_self _ _)
      · exact List.mem_cons_of_mem _ (List.mem_cons_of_mem _ h')

/-- The distinct-keys list contains no duplicates. -/
theorem firstKeys_nodup (l : List String) : (firstKeys l).Nodup :=
  List.nodup_reverse.mpr (List.nodup_dedup _)

/-- Membership in the distinct-keys list is membership in the original. -/
theorem mem_firstKeys {a : String} {l : List String} :
    a ∈ firstKeys l ↔ a ∈ l := by
  unfold firstKeys
  rw [List.mem_reverse, List.mem_dedup, List.mem_reverse]

/-- A list with no duplicates is its own distinct-keys list. -/
theorem firstKeys_eq_self {l : List String} (h : l.Nodup) : firstKeys l = l := by
  unfold firstKeys
  rw [List.dedup_eq_self.mpr (List.nodup_reverse.mpr h), List.reverse_reverse]

/-- Every member of a duplicate group carries the group's key. -/
theorem groupFor_ref {rs : List SourceResult} {k : String} {r : SourceResult}
    (h : r ∈ groupFor rs k) : refOf r = k :=
  of_decide_eq_true (List.mem_filter.mp h).2

/-- A key drawn from the list has a non-empty duplicate group. -/
theorem groupFor_ne_nil {rs : List SourceResult} {k : String}
    (h : k ∈ rs.map refOf) : groupFor rs k ≠ [] := by
  rcases List.mem_map.mp h with ⟨r, hr, he⟩
  exact List.ne_nil_of_mem (List.mem_filter.mpr ⟨hr, decide_eq_true he⟩)

/-- Collapsing a non-empty group whose members all carry key k yields an
entry whose reference normalizes to k. -/
theorem mergeList_ref {q : QueryRequest} {k : String} {g : List SourceResult}
    (hne : g ≠ []) (hall : ∀ r ∈ g, refOf r = k) :
    normalizeRef (mergeList q k g).canonicalRef = k := by
  cases g with
  | nil => exact absurd rfl hne
  | cons a rest =>
    have hs := survivorOf_mem rest a
    exact hall _ hs

/-- The normalized references of the deduplicated list are exactly the
distinct keys of the input. -/
theorem dedup_refs (q : QueryRequest) (rs : List SourceResult) :
    (dedupByRef q rs).map (fun m => normalizeRef m.canonicalRef) =
      firstKeys (rs.map refOf) := by
  unfold dedupByRef
  rw [List.map_map]
  have h : ∀ k ∈ firstKeys (rs.map refOf),
      ((fun m => normalizeRef m.canonicalRef) ∘
        (fun k => mergeList q k (groupFor rs k))) k = id k := by
    intro k hk
    have hkm : k ∈ rs.map refOf := mem_firstKeys.mp hk
    exact mergeList_ref (groupFor_ne_nil hkm) (fun r hr => groupFor_ref hr)
  rw [List.map_congr_left h, List.map_id]

/-- The sorted entries are, forgetting positions, a permutation of the
deduplicated list. -/
theorem rankEntries_map_m_perm (q : QueryRequest) (rs : List SourceResult) :
    ((rankEntries q rs).map Entry.m).Perm (dedupByRef q rs) := by
  unfold rankEntries
  have hp := (List.perm_insertionSort (entryLE q.queryType)
    ((dedupByRef q rs).enum.map (fun p => (⟨p.2, p.1⟩ : Entry)))).map Entry.m
  refine hp.trans ?_
  rw [List.map_map]
  show List.Perm (List.map Prod.snd (dedupByRef q rs).enum) _
  rw [List.enum_map_snd]

/-- The caller-visible results are the first K deduplicated-and-sorted
entries. -/
theorem rankResults_map_result (q : QueryRequest) (K : ℕ) (rs : List SourceResult) :
    (rankResults q K rs).map RankedResult.result =
      ((rankEntries q rs).map Entry.m).take K := by
  unfold rankResults
  rw [List.map_map]
  show List.map Prod.snd (((rankEntries q rs).map Entry.m).take K).enum = _
  rw [List.enum_map_snd]

/-- C1 (amended): the ranker's output never contains two entries whose
canonical references normalize to the same value; every input result is
represented by exactly one surviving deduplicated entry with its normalized
reference (the survivor is the richer-snippet copy, its boost conditions
unioned across the duplicates; it need not be the individually higher-scored
copy). -/
theorem C1_dedup (q : QueryRequest) (K : ℕ) (rs : List SourceResult) :
    ((rankResults q K rs).map (fun e => normalizeRef e.result.canonicalRef)).Nodup ∧
    ∀ r ∈ rs, ∃ m ∈ dedupByRef q rs,
      normalizeRef m.canonicalRef = normalizeRef r.canonicalRef := by
  constructor
  · have h0 : ((dedupByRef q rs).map (fun m => normalizeRef m.canonicalRef)).Nodup := by
      rw [dedup_refs]
      exact firstKeys_nodup _
    have hperm := (rankEntries_map_m_perm q rs).map (fun m => normalizeRef m.canonicalRef)
    have h1 : (((rankEntries q rs).map Entry.m).map
        (fun m => normalizeRef m.canonicalRef)).Nodup := hperm.symm.nodup h0
    have h2 : (rankResults q K rs).map (fun e => normalizeRef e.result.canonicalRef) =
        ((((rankEntries q rs).map Entry.m).map
          (fun m => normalizeRef m.canonicalRef)).take K) := by
      rw [← List.map_take, ← rankResults_map_result q K rs, List.map_map]
      rfl
    rw [h2]
    exact List.Nodup.sublist (List.take_sublist _ _) h1
  · intro r hr
    have hk : normalizeRef r.canonicalRef ∈ firstKeys (rs.map refOf) :=
      mem_firstKeys.mpr (List.mem_map_of_mem refOf hr)
    rw [← dedup_refs q rs] at hk
    rcases List.mem_map.mp hk with ⟨m, hm, he⟩
    exact ⟨m, hm, he⟩

/-- C1 witness: the theorem applied at the concrete duplicate pair. -/
theorem C1_dedup_witness :
    ((rankResults qApi 5 [rShort, rLong]).map
        (fun e => normalizeRef e.result.canonicalRef)).Nodup ∧
      ∃ m ∈ dedupByRef qApi [rShort, rLong],
        normalizeRef m.canonicalRef = normalizeRef rShort.canonicalRef :=
  ⟨(C1_dedup qApi 5 [rShort, rLong]).1,
    (C1_dedup qApi 5 [rShort, rLong]).2 rShort (by simp)⟩

/-- C6: the ranker's output is capped at the configured top-K (default 5):
its length is the minimum of K and the number of distinct deduplicated
results, and when fewer than K distinct results exist all of them are
returned. -/
theorem C6_topK (q : QueryRequest) (K : ℕ) (rs : List SourceResult) :
    defaultTopK = 5 ∧
    (rankResults q K rs).length = min K (dedupByRef q rs).length ∧
    ((dedupByRef q rs).length ≤ K →
      ((rankResults q K rs).map RankedResult.result).Perm (dedupByRef q rs)) := by
  have hlen : (rankEntries q rs).length = (dedupByRef q rs).length := by
    unfold rankEntries
    rw [(List.perm_insertionSort _ _).length_eq, List.length_map, List.enum_length]
  refine ⟨rfl, ?_, ?_⟩
  · unfold rankResults
    rw [List.length_map, List.enum_length, List.length_take, List.length_map, hlen]
  · intro hle
    rw [rankResults_map_result, List.take_of_length_le]
    · exact rankEntries_map_m_perm q rs
    · rw [List.length_map, hlen]
      exact hle

/-- C6 witness: the theorem applied at a concrete two-result input below the
cap. -/
theorem C6_topK_witness :
    (dedupByRef qApi [rDoc, rQA]).length ≤ 5 ∧
      ((rankResults qApi 5 [rDoc, rQA]).map RankedResult.result).Perm
        (dedupByRef qApi [rDoc, rQA]) :=
  ⟨by with_unfolding_all decide,
    (C6_topK qApi 5 [rDoc, rQA]).2.2 (by with_unfolding_all decide)⟩

/-! ### Arrival-order invariance of deduplication -/

/-- The richer pick is at least as long as its left argument. -/
theorem pickRicher_len_left (a b : SourceResult) :
    a.snippet.length ≤ (pickRicher a b).snippet.length := by
  unfold pickRicher
  split
  · next h => exact Nat.le_of_lt h
  · exact Nat.le_refl _

/-- The richer pick is at least as long as its right argument. -/
theorem pickRicher_len_right (a b : SourceResult) :
    b.snippet.length ≤ (pickRicher a b).snippet.length := by
  unfold pickRicher
  split
  · exact Nat.le_refl _
  · next h => exact Nat.le_of_not_lt h

/-- The surviving copy has the longest snippet of its group. -/
theorem survivorOf_len_ge (rest : List SourceResult) (a : SourceResult) :
    ∀ x ∈ a :: rest, x.snippet.length ≤ (survivorOf a rest).snippet.length := by
  induction rest generalizing a with
  | nil =>
    intro x hx
    rcases List.mem_singleton.mp hx with rfl
    exact Nat.le_refl _
  | cons b bs ih =>
    intro x hx
    have hpicked : (pickRicher a b).snippet.length ≤
        (survivorOf (pickRicher a b) bs).snippet.length :=
      ih (pickRicher a b) _ (List.mem_cons_self _ _)
    rcases List.mem_cons.mp hx with rfl | hx'
    · exact Nat.le_trans (pickRicher_len_left _ b) hpicked
    · rcases List.mem_cons.mp hx' with rfl | hx''
      · exact Nat.le_trans (pickRicher_len_right a _) hpicked
      · exact ih (pickRicher a b) x (List.mem_cons_of_mem _ hx'')

/-- When one group member strictly dominates every other member's snippet
length, the fold picks it regardless of the fold order. -/
theorem survivorOf_unique (l : List SourceResult) (acc s : SourceResult)
    (hmem : s ∈ acc :: l)
    (hall : ∀ x ∈ acc :: l, x = s ∨ x.snippet.length < s.snippet.length) :
    survivorOf acc l = s := by
  induction l generalizing acc with
  | nil =>
    rcases List.mem_singleton.mp hmem with rfl
    rfl
  | cons b bs ih =>
    have hacc := hall acc (List.mem_cons_self _ _)
    have hb := hall b (List.mem_cons_of_mem _ (List.mem_cons_self _ _))
    have hpick : pickRicher acc b = s ∨
        (pickRicher acc b).snippet.length < s.snippet.length := by
      rcases pickRicher_cases acc b with hc | hc
      · rw [hc]
        exact hacc
      · rw [hc]
        exact hb
    have hsmem : s ∈ pickRicher acc b :: bs := by
      rcases hpick with hp | hp
      · rw [hp]
        exact List.mem_cons_self _ _
      · rcases List.mem_cons.mp hmem with hs1 | hs2
        · exact absurd (Nat.lt_of_le_of_lt (by rw [hs1]; exact pickRicher_len_left acc b) hp)
            (Nat.lt_irrefl _)
        · rcases List.mem_cons.mp hs2 with hs1 | hs3
          · exact absurd (Nat.lt_of_le_of_lt (by rw [hs1]; exact pickRicher_len_right acc b) hp)
              (Nat.lt_irrefl _)
          · exact List.mem_cons_of_mem _ hs3
    have hall' : ∀ x ∈ pickRicher acc b :: bs,
        x = s ∨ x.snippet.length < s.snippet.length := by
      intro x hx
      rcases List.mem_cons.mp hx with rfl | hx'
      · exact hpick
      · exact hall x (List.mem_cons_of_mem _ (List.mem_cons_of_mem _ hx'))
    exact ih (pickRicher acc b) hsmem hall'

/-- When the group is free of snippet-length ties between distinct members,
every member either is the survivor or has a strictly shorter snippet. -/
theorem survivorOf_strict (a : SourceResult) (rest : List SourceResult)
    (hs : (a :: rest).Pairwise
      (fun x y => x = y ∨ x.snippet.length ≠ y.snippet.length)) :
    ∀ x ∈ a :: rest, x = survivorOf a rest ∨
      x.snippet.length < (survivorOf a rest).snippet.length := by
  intro x hx
  by_cases hxe : x = survivorOf a rest
  · exact Or.inl hxe
  · refine Or.inr ?_
    have hle := survivorOf_len_ge rest a x hx
    have hsm := survivorOf_mem rest a
    have hsymm : Symmetric
        (fun x y : SourceResult => x = y ∨ x.snippet.length ≠ y.snippet.length) :=
      fun _ _ h => h.imp Eq.symm Ne.symm
    rcases hs.forall hsymm hx hsm hxe with he | he
    · exact absurd he hxe
    · exact Nat.lt_of_le_of_ne hle he

/-- List.any is invariant under permutation. -/
theorem perm_any {α : Type} {l1 l2 : List α} (hp : l1.Perm l2) (f : α → Bool) :
    l1.any f = l2.any f := by
  rw [List.any_eq, List.any_eq, decide_eq_decide]
  constructor
  · rintro ⟨x, hx, hfx⟩
    exact ⟨x, hp.mem_iff.mp hx, hfx⟩
  · rintro ⟨x, hx, hfx⟩
    exact ⟨x, hp.mem_iff.mpr hx, hfx⟩

/-- Folding max over a list of rationals is invariant under permutation. -/
theorem perm_foldl_max {l1 l2 : List ℚ} (hp : l1.Perm l2) (b : ℚ) :
    l1.foldl max b = l2.foldl max b :=
  hp.foldl_eq b

/-- Collapsing a duplicate group is invariant under permutation of the group
when the group has no snippet-length ties between distinct members. -/
theorem mergeGroup_perm_eq {q : QueryRequest} {a1 a2 : SourceResult}
    {r1 r2 : List SourceResult}
    (hp : (a1 :: r1).Perm (a2 :: r2))
    (hs : (a1 :: r1).Pairwise
      (fun x y => x = y ∨ x.snippet.length ≠ y.snippet.length)) :
    mergeGroup q a1 r1 = mergeGroup q a2 r2 := by
  have hsurv : survivorOf a2 r2 = survivorOf a1 r1 := by
    apply survivorOf_unique
    · exact hp.mem_iff.mp (survivorOf_mem r1 a1)
    · intro x hx
      exact survivorOf_strict a1 r1 hs x (hp.mem_iff.mpr hx)
  simp only [mergeGroup]
  rw [hsurv]
  congr 1
  · exact perm_any hp _
  · exact perm_any hp _
  · exact perm_foldl_max (hp.map (fun r => r.quality.getD 0)) 0
  · exact perm_any hp _

/-- Collapsing a (possibly empty) duplicate group is invariant under
permutation, absent snippet-length ties. -/
theorem mergeList_perm_eq {q : QueryRequest} {k : String}
    {g1 g2 : List SourceResult} (hp : g1.Perm g2)
    (hs : g1.Pairwise (fun x y => x = y ∨ x.snippet.length ≠ y.snippet.length)) :
    mergeList q k g1 = mergeList q k g2 := by
  cases g1 with
  | nil =>
    rw [← hp.nil_eq]
  | cons a1 r1 =>
    cases g2 with
    | nil => exact absurd hp.symm.nil_eq.symm (List.cons_ne_nil a1 r1)
    | cons a2 r2 => exact mergeGroup_perm_eq hp hs

/-- Deduplication commutes with permutation of the merged fan-out list,
absent snippet-length ties inside any duplicate group. -/
theorem dedupByRef_perm (q : QueryRequest) {j1 j2 : List SourceResult}
    (hj : j1.Perm j2)
    (hsnip : ∀ k, (groupFor j1 k).Pairwise
      (fun a b => a = b ∨ a.snippet.length ≠ b.snippet.length)) :
    (dedupByRef q j1).Perm (dedupByRef q j2) := by
  unfold dedupByRef
  have hkeys : (firstKeys (j1.map refOf)).Perm (firstKeys (j2.map refOf)) := by
    refine (List.perm_ext_iff_of_nodup (firstKeys_nodup _) (firstKeys_nodup _)).mpr ?_
    intro a
    rw [mem_firstKeys, mem_firstKeys]
    exact (hj.map refOf).mem_iff
  have hfun : ∀ k ∈ firstKeys (j1.map refOf),
      (fun k => mergeList q k (groupFor j1 k)) k =
        (fun k => mergeList q k (groupFor j2 k)) k := by
    intro k _
    exact mergeList_perm_eq (hj.filter _) (hsnip k)
  rw [List.map_congr_left hfun]
  exact hkeys.map _

/-- Mutually comparable deduplicated results have equal ranking keys. -/
theorem mLE_key_antisymm {qt : QueryType} {x y : MergedResult}
    (h1 : mLE qt x y) (h2 : mLE qt y x) : keyOf qt x = keyOf qt y := by
  unfold mLE at h1 h2
  rcases h1 with h1 | h1
  · rcases h2 with h2 | h2
    · exact absurd h2 (fun hc => keyLT_asymm h1 hc)
    · exact h2.symm
  · exact h1

/-- The entry order projects to the key order on deduplicated results. -/
theorem entryLE_mLE {qt : QueryType} {a b : Entry} (h : entryLE qt a b) :
    mLE qt a.m b.m := by
  unfold entryLE at h
  unfold mLE
  rcases h with h | ⟨e, _⟩
  · exact Or.inl h
  · exact Or.inr e

/-- Two sorted permutations of one list with pairwise distinct ranking keys
are equal. -/
theorem sorted_key_unique {qt : QueryType} {l1 l2 : List MergedResult}
    (hp : l1.Perm l2) (hs1 : List.Sorted (mLE qt) l1)
    (hs2 : List.Sorted (mLE qt) l2)
    (hk : l1.Pairwise (fun a b => keyOf qt a ≠ keyOf qt b)) : l1 = l2 := by
  induction l1 generalizing l2 with
  | nil => exact hp.nil_eq
  | cons a t1 ih =>
    cases l2 with
    | nil => exact absurd hp.symm.nil_eq.symm (List.cons_ne_nil a t1)
    | cons b t2 =>
      have hab : a = b := by
        by_contra hne
        have ha2 : a ∈ t2 := by
          have hm := hp.mem_iff.mp (List.mem_cons_self a t1)
          exact (List.mem_cons.mp hm).resolve_left hne
        have hb1 : b ∈ t1 := by
          have hm := hp.mem_iff.mpr (List.mem_cons_self b t2)
          exact (List.mem_cons.mp hm).resolve_left (fun hc => hne hc.symm)
        have h1 : mLE qt a b := (List.sorted_cons.mp hs1).1 b hb1
        have h2 : mLE qt b a := (List.sorted_cons.mp hs2).1 a ha2
        exact (List.pairwise_cons.mp hk).1 b hb1 (mLE_key_antisymm h1 h2)
      subst hab
      have ht := ih hp.cons_inv (List.sorted_cons.mp hs1).2
        (List.sorted_cons.mp hs2).2 (List.pairwise_cons.mp hk).2
      rw [ht]

/-- The stripped sorted entries are sorted by descending ranking keys. -/
theorem rankEntries_sorted_mLE (q : QueryRequest) (rs : List SourceResult) :
    List.Sorted (mLE q.queryType) ((rankEntries q rs).map Entry.m) := by
  have h1 : List.Sorted (entryLE q.queryType) (rankEntries q rs) := by
    unfold rankEntries
    exact List.sorted_insertionSort _ _
  exact List.pairwise_map.mpr (h1.imp entryLE_mLE)

/-- C5 (amended): the ranker's merge step is commutative over adapter
completion order: for any two arrival orders of the same adapter outputs the
final ranked list is identical, provided no duplicate group contains two
distinct copies with equal snippet lengths (otherwise the surviving copy
follows arrival order) and no two deduplicated results tie on the full
scoring key (score, quality, source priority) — the documented stable
tie-break on fan-out order. -/
theorem C5_commutativity (q : QueryRequest) (K : ℕ)
    (outs1 outs2 : List (List SourceResult))
    (hperm : outs1.Perm outs2)
    (hsnip : ∀ k, (groupFor outs1.flatten k).Pairwise
      (fun a b => a = b ∨ a.snippet.length ≠ b.snippet.length))
    (hkeys : (dedupByRef q outs1.flatten).Pairwise
      (fun a b => keyOf q.queryType a ≠ keyOf q.queryType b)) :
    rankResults q K outs1.flatten = rankResults q K outs2.flatten := by
  have hj : outs1.flatten.Perm outs2.flatten := hperm.flatten
  have hd : (dedupByRef q outs1.flatten).Perm (dedupByRef q outs2.flatten) :=
    dedupByRef_perm q hj hsnip
  have hm1 := rankEntries_map_m_perm q outs1.flatten
  have hm2 := rankEntries_map_m_perm q outs2.flatten
  have hp12 : ((rankEntries q outs1.flatten).map Entry.m).Perm
      ((rankEntries q outs2.flatten).map Entry.m) :=
    (hm1.trans hd).trans hm2.symm
  have hk1 : ((rankEntries q outs1.flatten).map Entry.m).Pairwise
      (fun a b => keyOf q.queryType a ≠ keyOf q.queryType b) :=
    (List.Perm.pairwise_iff (fun h => Ne.symm h) hm1).mpr hkeys
  have heq : (rankEntries q outs1.flatten).map Entry.m =
      (rankEntries q outs2.flatten).map Entry.m :=
    sorted_key_unique hp12 (rankEntries_sorted_mLE q _)
      (rankEntries_sorted_mLE q _) hk1
  unfold rankResults
  rw [heq]

/-- C5 witness: the theorem applied at two concrete arrival orders of the
same two singleton adapter outputs with distinct references and distinct
ranking keys. -/
theorem C5_commutativity_witness :
    ([[rDoc], [rQA]] : List (List SourceResult)).Perm [[rQA], [rDoc]] ∧
      rankResults qApi 5 [[rDoc], [rQA]].flatten =
        rankResults qApi 5 [[rQA], [rDoc]].flatten :=
  ⟨by with_unfolding_all decide,
    C5_commutativity qApi 5 [[rDoc], [rQA]] [[rQA], [rDoc]]
      (by with_unfolding_all decide)
      (by
        intro k
        by_cases h1 : refOf rDoc = k
        · by_cases h2 : refOf rQA = k
          · exact absurd (h1.trans h2.symm) (by with_unfolding_all decide)
          · simp [groupFor, h1, h2]
        · by_cases h2 : refOf rQA = k <;> simp [groupFor, h1, h2])
      (by with_unfolding_all decide)⟩
